import Mathlib

/-!
Verification development for the unified-mind memory worker.

The JavaScript source (worker `src/index.js` and the bulk-ingest CLI) is
shallowly embedded below.  JS strings are modelled as `List Char` (the code
only indexes and slices, so code-unit details do not matter here), JS objects
used as metadata records are modelled as association lists where the *last*
binding for a key wins (this matches object-spread overwrite semantics), and
the external collaborators (embedding model, vector index, blob store, content
hasher, id generator, clock) are modelled as explicit function parameters.
The `while` loop of the chunker is modelled with explicit fuel, returning
`none` when the fuel runs out, so non-termination of the JS loop is visible
as `none` for every fuel value.
-/

/-! ## JS string primitives -/

/-- The whitespace class trimmed by `String.prototype.trim` (ASCII part plus
no-break space; the inputs in this development are ASCII). -/
def isJsSpace (c : Char) : Bool :=
  c = ' ' || c = '\t' || c = '\n' || c = '\r' || c = '\x0b' || c = '\x0c' || c = ' '

/-- `text.trim()`: drop leading and trailing whitespace. -/
def jsTrim (l : List Char) : List Char :=
  ((l.dropWhile isJsSpace).reverse.dropWhile isJsSpace).reverse

/-- Normalise one `slice` index: negative indices count from the end,
both ends are clamped to `[0, len]`. -/
def jsSliceIdx (len : Nat) (i : Int) : Nat :=
  if i < 0 then ((len : Int) + i).toNat else min i.toNat len

/-- `text.slice(a, b)` for JS strings. -/
def jsSlice (l : List Char) (a b : Int) : List Char :=
  let s := jsSliceIdx l.length a
  let e := jsSliceIdx l.length b
  (l.drop s).take (e - s)

/-- Does `needle` occur in `hay` starting at position `i`? -/
def occursAt (hay needle : List Char) (i : Nat) : Bool :=
  needle.isPrefixOf (hay.drop i)

/-- `hay.lastIndexOf(needle)`: index of the last occurrence, `-1` if none. -/
def jsLastIndexOf (hay needle : List Char) : Int :=
  match ((List.range (hay.length + 1)).filter (occursAt hay needle)).getLast? with
  | some i => (i : Int)
  | none => -1

/-- `estimateTokens(text)` from the worker: `Math.ceil(text.length / 4)`. -/
def estimateTokens (text : String) : Nat := (text.length + 3) / 4

/-- ASCII upper-casing, as `String.prototype.toUpperCase` behaves on the
ASCII memory-type strings used by the worker. -/
def jsToUpper (s : String) : String := String.mk (s.data.map Char.toUpper)

/-- ASCII lower-casing (`String.prototype.toLowerCase` on ASCII input). -/
def jsToLower (s : String) : String := String.mk (s.data.map Char.toLower)

/-- JS `a || d` on an optional string: `undefined` and `""` are falsy. -/
def jsOrS (o : Option String) (d : String) : String :=
  match o with
  | some s => if s = "" then d else s
  | none => d

/-! ## Chunker (`chunkText` in both the worker and the CLI; identical loop,
the worker converts token parameters to characters by multiplying by 4). -/

def breakNewlines : List Char := ['\n', '\n']
def breakPeriod : List Char := ['.', ' ']
def breakQuestion : List Char := ['?', ' ']
def breakExclaim : List Char := ['!', ' ']

/-- One iteration's window end: `end = start + maxChars`, pulled back to the
last natural breakpoint when that breakpoint lies in the trailing half of the
window (`lastBreak > maxChars * 0.5`). -/
def chunkEnd (text : List Char) (maxChars start : Int) : Int :=
  let e0 := start + maxChars
  if e0 < (text.length : Int) then
    let slice := jsSlice text start e0
    let lastBreak :=
      max (max (jsLastIndexOf slice breakNewlines) (jsLastIndexOf slice breakPeriod))
          (max (jsLastIndexOf slice breakQuestion) (jsLastIndexOf slice breakExclaim))
    if 2 * lastBreak > maxChars then start + lastBreak + 1 else e0
  else e0

/-- The `while (start < text.length)` loop of `chunkText`, with fuel.
Each iteration pushes `text.slice(start, end).trim()` and sets
`start = end - overlapChars`.  `none` means the fuel ran out. -/
def chunkLoop (text : List Char) (maxChars overlapChars : Int) :
    Nat → Int → List (List Char) → Option (List (List Char))
  | 0, _, _ => none
  | fuel + 1, start, acc =>
    if start < (text.length : Int) then
      let e := chunkEnd text maxChars start
      chunkLoop text maxChars overlapChars fuel (e - overlapChars)
        (jsTrim (jsSlice text start e) :: acc)
    else some acc.reverse

/-- `chunkText(text, maxChars, overlapChars)` as in the CLI (character
parameters): texts no longer than `maxChars` are returned as the single
chunk `[text]`, otherwise the sliding-window loop runs. -/
def chunkCore (fuel : Nat) (text : List Char) (maxChars overlapChars : Int) :
    Option (List (List Char)) :=
  if (text.length : Int) ≤ maxChars then some [text]
  else chunkLoop text maxChars overlapChars fuel 0 []

/-- `chunkText(text, maxTokens, overlap)` as in the worker: token parameters
are converted at 4 characters per token. -/
def chunkText (fuel : Nat) (text : List Char) (maxTokens overlap : Int) :
    Option (List (List Char)) :=
  chunkCore fuel text (maxTokens * 4) (overlap * 4)

/-! ## Helper lemmas about `dropWhile` and `jsTrim` -/

theorem dropWhile_dropWhile {α : Type} (p : α → Bool) (l : List α) :
    (l.dropWhile p).dropWhile p = l.dropWhile p := by
  induction l with
  | nil => rfl
  | cons x xs ih =>
    by_cases h : p x
    · simp [List.dropWhile_cons, h, ih]
    · simp [List.dropWhile_cons, h]

theorem head_dropWhile_false {α : Type} (p : α → Bool) (l : List α) (h : α)
    (hh : (l.dropWhile p).head? = some h) : ¬ p h := by
  have := List.head?_dropWhile_not p l
  rw [hh] at this
  simpa using this

theorem getLast?_dropWhile {α : Type} (p : α → Bool) (l : List α)
    (h : l.dropWhile p ≠ []) : (l.dropWhile p).getLast? = l.getLast? := by
  obtain ⟨t, ht⟩ := List.dropWhile_suffix (l := l) p
  conv_rhs => rw [← ht]
  rw [List.getLast?_append_of_ne_nil _ h]

theorem dropWhile_eq_self_of_head {α : Type} (p : α → Bool) (l : List α)
    (h : ∀ a, l.head? = some a → p a = false) : l.dropWhile p = l := by
  cases l with
  | nil => rfl
  | cons x xs => simp [List.dropWhile_cons, h x rfl]

theorem jsTrim_idem (l : List Char) : jsTrim (jsTrim l) = jsTrim l := by
  have hB : ∀ a,
      (((l.dropWhile isJsSpace).reverse.dropWhile isJsSpace).reverse).head? = some a →
      isJsSpace a = false := by
    intro a ha
    rw [List.head?_reverse] at ha
    rcases eq_or_ne ((l.dropWhile isJsSpace).reverse.dropWhile isJsSpace) [] with hnil | hne
    · rw [hnil] at ha; simp at ha
    · rw [getLast?_dropWhile _ _ hne, List.getLast?_reverse] at ha
      have := head_dropWhile_false _ _ _ ha
      exact Bool.not_eq_true _ ▸ by simpa using this
  unfold jsTrim
  rw [dropWhile_eq_self_of_head _ _ hB, List.reverse_reverse, dropWhile_dropWhile]

/-! ## Claim C2: the chunker has no minimum-advance guard -/

def c2Text : List Char := List.replicate 5 'a'

theorem chunkEnd_c2 : chunkEnd c2Text 2 0 = 2 := by decide

theorem chunkLoop_c2_stuck :
    ∀ (fuel : Nat) (acc : List (List Char)), chunkLoop c2Text 2 2 fuel 0 acc = none := by
  intro fuel
  induction fuel with
  | zero => intro acc; rfl
  | succ n ih =>
    intro acc
    rw [chunkLoop]
    rw [if_pos (by decide)]
    rw [chunkEnd_c2]
    norm_num
    exact ih _

/-- Claim C2: the spec requires a minimum window advance of 1 character when
`overlapChars ≥ maxChars`; the code has no such guard.  With `maxChars = 2`,
`overlapChars = 2` and the 5-character text `"aaaaa"`, the window end is 2 and
the next start is `2 - 2 = 0`: the start never advances, so the `while` loop
never terminates — the fuel-indexed model returns `none` for every fuel. -/
theorem chunkText_no_min_advance :
    (∀ fuel : Nat, chunkCore fuel c2Text 2 2 = none) ∧
    chunkEnd c2Text 2 0 - 2 = 0 := by
  constructor
  · intro fuel
    unfold chunkCore
    rw [if_neg (by decide)]
    exact chunkLoop_c2_stuck fuel []
  · decide

/-! ## Claim C6: chunks can be empty after trimming -/

/-- Claim C6 counterexample: chunking the non-empty 8-character text
`"aaaa    "` with `maxChars = 4`, `overlapChars = 0` produces the chunk list
`["aaaa", ""]` — the second window is all spaces and trims to the empty
string, so not every returned chunk is non-empty. -/
theorem chunkCore_empty_chunk_counterexample :
    chunkCore 10 ("aaaa    ".toList) 4 0 = some ["aaaa".toList, ([] : List Char)] ∧
    ¬ (∀ c ∈ ["aaaa".toList, ([] : List Char)], c ≠ ([] : List Char)) := by
  constructor
  · decide
  · decide

theorem chunkLoop_chunks_trimmed (text : List Char) (maxChars overlapChars : Int) :
    ∀ (fuel : Nat) (start : Int) (acc cs : List (List Char)),
    (∀ c ∈ acc, jsTrim c = c) →
    chunkLoop text maxChars overlapChars fuel start acc = some cs →
    ∀ c ∈ cs, jsTrim c = c := by
  intro fuel
  induction fuel with
  | zero =>
    intro start acc cs _ h
    exact absurd h (by simp [chunkLoop])
  | succ n ih =>
    intro start acc cs hacc h
    rw [chunkLoop] at h
    by_cases hs : start < (text.length : Int)
    · rw [if_pos hs] at h
      refine ih _ _ _ ?_ h
      intro c hc
      rcases List.mem_cons.mp hc with rfl | hc'
      · exact jsTrim_idem _
      · exact hacc c hc'
    · rw [if_neg hs] at h
      injection h with h'
      subst h'
      intro c hc
      exact hacc c (List.mem_reverse.mp hc)

/-- Claim C6 amended: every chunk returned by the chunker is either the whole
input text (the single-chunk case, returned verbatim) or a whitespace-trimmed
window slice; trimmed chunks may be empty, so non-emptiness does not hold. -/
theorem chunkCore_chunks_trimmed (fuel : Nat) (text : List Char)
    (maxChars overlapChars : Int) (cs : List (List Char))
    (h : chunkCore fuel text maxChars overlapChars = some cs) :
    ∀ c ∈ cs, c = text ∨ jsTrim c = c := by
  unfold chunkCore at h
  by_cases hl : (text.length : Int) ≤ maxChars
  · rw [if_pos hl] at h
    injection h with h'
    subst h'
    intro c hc
    rw [List.mem_singleton] at hc
    exact Or.inl hc
  · rw [if_neg hl] at h
    intro c hc
    exact Or.inr (chunkLoop_chunks_trimmed text maxChars overlapChars fuel 0 [] cs
      (by simp) h c hc)

theorem chunkCore_chunks_trimmed_witness :
    ([] : List Char) = "aaaa    ".toList ∨ jsTrim ([] : List Char) = [] :=
  chunkCore_chunks_trimmed 10 ("aaaa    ".toList) 4 0 ["aaaa".toList, []]
    (by decide) [] (by decide)

/-! ## Claim C7: the single-chunk case does not trim -/

/-- Claim C7 counterexample: the 3-character text `" a "` fits in
`maxChars = 4`, and chunking returns `[" a "]` — the input verbatim, which is
not equal to its whitespace-trim `"a"`. -/
theorem chunkCore_single_counterexample :
    chunkCore 10 (" a ".toList) 4 0 = some [" a ".toList] ∧
    jsTrim (" a ".toList) ≠ " a ".toList := by
  constructor
  · decide
  · decide

/-- Claim C7 amended: for every text with `length ≤ maxChars` the chunker
returns exactly one chunk, and that chunk is the input text unchanged (no
whitespace trimming is applied on this path). -/
theorem chunkCore_single_unchanged (fuel : Nat) (text : List Char)
    (maxChars overlapChars : Int) (h : (text.length : Int) ≤ maxChars) :
    chunkCore fuel text maxChars overlapChars = some [text] := by
  unfold chunkCore
  rw [if_pos h]

theorem chunkCore_single_unchanged_witness :
    chunkCore 0 ("hi".toList) 8 0 = some ["hi".toList] :=
  chunkCore_single_unchanged 0 ("hi".toList) 8 0 (by decide)

/-! ## Attribution formatter (`formatAttribution`, worker lines 166-175) -/

/-- The metadata fields read by the retrieval path; every field may be
absent (`undefined` in JS). -/
structure MetaView where
  entity_name : Option String
  source_platform : Option String
  memory_type : Option String
  timestamp : Option String
  text_preview : Option String
deriving DecidableEq

/-- The argument shape `formatAttribution` receives: an object with a `text`
field and a `metadata` field, either possibly absent. -/
structure MemoryLike where
  text : Option String
  metadata : Option MetaView
deriving DecidableEq

/-- `formatAttribution(memory)` from the worker: a bracketed provenance
header, the content line, and a `---` separator. -/
def formatAttribution (memory : MemoryLike) : String :=
  let entity := jsOrS (memory.metadata.bind MetaView.entity_name) "unknown"
  let platform := jsOrS (memory.metadata.bind MetaView.source_platform) "unknown"
  let timestamp := jsOrS (memory.metadata.bind MetaView.timestamp) "unknown date"
  let mtype := jsOrS (memory.metadata.bind MetaView.memory_type) "memory"
  "[" ++ jsToUpper mtype ++ " from " ++ entity ++ " | Source: " ++ platform ++ " | "
    ++ timestamp ++ "]\n"
    ++ jsOrS memory.text
        (jsOrS (memory.metadata.bind MetaView.text_preview) "(content unavailable)")
    ++ "\n---"

/-- The formatter as claim C5 words it: the fallback for a missing timestamp
would be the literal string `unknown` (like entity and platform). -/
def formatAttributionClaim (memory : MemoryLike) : String :=
  let entity := jsOrS (memory.metadata.bind MetaView.entity_name) "unknown"
  let platform := jsOrS (memory.metadata.bind MetaView.source_platform) "unknown"
  let timestamp := jsOrS (memory.metadata.bind MetaView.timestamp) "unknown"
  let mtype := jsOrS (memory.metadata.bind MetaView.memory_type) "memory"
  "[" ++ jsToUpper mtype ++ " from " ++ entity ++ " | Source: " ++ platform ++ " | "
    ++ timestamp ++ "]\n"
    ++ jsOrS memory.text
        (jsOrS (memory.metadata.bind MetaView.text_preview) "(content unavailable)")
    ++ "\n---"

/-- Claim C5 counterexample: on a memory with no metadata at all the code
renders the timestamp slot as `unknown date`, not `unknown` as the claim
states, so the two formatters disagree. -/
theorem formatAttribution_counterexample :
    formatAttribution ⟨none, none⟩ ≠ formatAttributionClaim ⟨none, none⟩ ∧
    formatAttribution ⟨none, none⟩
      = "[MEMORY from unknown | Source: unknown | unknown date]\n(content unavailable)\n---" := by
  constructor
  · decide
  · decide

/-- The header line of the amended attribution block. -/
def attributionHeader (memory : MemoryLike) : String :=
  "[" ++ jsToUpper (jsOrS (memory.metadata.bind MetaView.memory_type) "memory")
    ++ " from " ++ jsOrS (memory.metadata.bind MetaView.entity_name) "unknown"
    ++ " | Source: " ++ jsOrS (memory.metadata.bind MetaView.source_platform) "unknown"
    ++ " | " ++ jsOrS (memory.metadata.bind MetaView.timestamp) "unknown date" ++ "]"

/-- The content line of the amended attribution block. -/
def attributionContent (memory : MemoryLike) : String :=
  jsOrS memory.text
    (jsOrS (memory.metadata.bind MetaView.text_preview) "(content unavailable)")

/-- Claim C5 amended: the formatter emits the four bracketed fields in fixed
order, with fallback `unknown` for missing entity and platform but
`unknown date` for a missing timestamp, then the content line (fallback
`(content unavailable)`), then a `---` line. -/
theorem formatAttribution_amended (memory : MemoryLike) :
    formatAttribution memory
      = attributionHeader memory ++ "\n" ++ attributionContent memory ++ "\n---" := by
  unfold formatAttribution attributionHeader attributionContent
  apply String.ext
  simp [String.data_append, List.append_assoc]

/-! ## Search filter (`toolSearch`, worker lines 259-302) -/

/-- The metadata filter built by `toolSearch`: `entity` is included only when
truthy and different from `"all"`; `memory_type` and `source_platform` are
included whenever truthy (the `"all"` check is applied to `entity` only). -/
def searchFilter (entity memory_type source_platform : Option String) :
    List (String × String) :=
  (match entity with
   | some e => if e ≠ "" ∧ e ≠ "all" then [("entity_name", e)] else []
   | none => []) ++
  (match memory_type with
   | some m => if m ≠ "" then [("memory_type", m)] else []
   | none => []) ++
  (match source_platform with
   | some sp => if sp ≠ "" then [("source_platform", sp)] else []
   | none => [])

/-- The `filter` option sent to the index: present only when the filter
object has at least one key. -/
def searchQueryFilter (entity memory_type source_platform : Option String) :
    Option (List (String × String)) :=
  if (searchFilter entity memory_type source_platform).length > 0 then
    some (searchFilter entity memory_type source_platform)
  else none

/-- Claim C3 counterexample: supplying `"all"` as `memory_type` does not
leave that field out of the filter — the index query is filtered on
`memory_type = "all"`, contrary to the claim that `"all"` is dropped for all
three fields. -/
theorem searchFilter_counterexample :
    searchFilter none (some "all") none = [("memory_type", "all")] ∧
    searchQueryFilter none (some "all") none = some [("memory_type", "all")] := by
  constructor
  · decide
  · decide

/-- Claim C3 amended: only `entity` is subject to the `"all"` exclusion; the
filter contains `entity_name ↦ v` exactly when entity is supplied, non-empty
and not `"all"`, while `memory_type ↦ v` and `source_platform ↦ v` are
present exactly when supplied and non-empty (even when the value is `"all"`);
the query carries no filter exactly when the filter object is empty. -/
theorem searchFilter_characterization (e mt sp : Option String) (v : String) :
    ((("entity_name", v) ∈ searchFilter e mt sp) ↔ (e = some v ∧ v ≠ "" ∧ v ≠ "all")) ∧
    ((("memory_type", v) ∈ searchFilter e mt sp) ↔ (mt = some v ∧ v ≠ "")) ∧
    ((("source_platform", v) ∈ searchFilter e mt sp) ↔ (sp = some v ∧ v ≠ "")) ∧
    (searchQueryFilter e mt sp = none ↔ searchFilter e mt sp = []) := by
  refine ⟨?_, ?_, ?_, ?_⟩
  · rcases e with _ | e <;> rcases mt with _ | m <;> rcases sp with _ | s <;>
      simp [searchFilter] <;> aesop
  · rcases e with _ | e <;> rcases mt with _ | m <;> rcases sp with _ | s <;>
      simp [searchFilter] <;> aesop
  · rcases e with _ | e <;> rcases mt with _ | m <;> rcases sp with _ | s <;>
      simp [searchFilter] <;> aesop
  · unfold searchQueryFilter
    split_ifs with h
    · constructor
      · intro hc; exact absurd hc (by simp)
      · intro hnil; rw [hnil] at h; simp at h
    · constructor
      · intro _
        rcases hx : searchFilter e mt sp with _ | ⟨p, rest⟩
        · rfl
        · rw [hx] at h; simp at h
      · intro _; rfl

/-! ## Retriever and grounding assembler (`toolSearch`,
`toolGetGroundingContext`, worker lines 259-349).  The vector index is a
collaborator: its ranked response to the query is passed in as a list of
matches, and similarity scores are modelled as rationals. -/

structure MatchT where
  id : String
  score : Rat
  metadata : Option MetaView
deriving DecidableEq

structure SearchMemory where
  id : String
  score : Rat
  text : Option String
  metadata : Option MetaView
  formatted : String
deriving DecidableEq

structure SearchOut where
  query : String
  count : Nat
  memories : List SearchMemory
deriving DecidableEq

/-- `toolSearch`: drop matches scoring below `min_score`, then build the
result records (id, score, preview text, metadata, formatted attribution). -/
def toolSearch (queryResp : List MatchT) (query : String) (min_score : Rat) :
    SearchOut :=
  let memories := (queryResp.filter (fun m => min_score ≤ m.score)).map fun m =>
    { id := m.id, score := m.score,
      text := m.metadata.bind MetaView.text_preview,
      metadata := m.metadata,
      formatted := formatAttribution ⟨m.metadata.bind MetaView.text_preview, m.metadata⟩ }
  { query := query, count := memories.length, memories := memories }

structure GroundOut where
  context : String
  token_estimate : Nat
  memories_included : Nat
  total_available : Nat
deriving DecidableEq

/-- The two header lines the grounding assembler starts its buffer with. -/
def groundingHeader (topic entity : String) : String :=
  "## Grounding Context\n" ++ "Query: \"" ++ topic ++ "\" | Entity filter: "
    ++ entity ++ "\n\n"

/-- The greedy packing loop of `toolGetGroundingContext`: append each
formatted block followed by a newline while the running token estimate
(which counts the block but not the appended newline) stays within budget;
stop at the first block that would exceed it. -/
def packLoop (max_tokens : Nat) :
    List SearchMemory → String → Nat → List String → String × Nat × List String
  | [], context, currentTokens, included => (context, currentTokens, included)
  | memory :: rest, context, currentTokens, included =>
    let memoryText := memory.formatted
    let memoryTokens := estimateTokens memoryText
    if currentTokens + memoryTokens ≤ max_tokens then
      packLoop max_tokens rest (context ++ memoryText ++ "\n")
        (currentTokens + memoryTokens) (included ++ [memory.id])
    else (context, currentTokens, included)

/-- `toolGetGroundingContext`: substitute the fixed query for the `recent`
topic, search with `min_score = 0.5`, then pack greedily into the token
budget. -/
def toolGetGroundingContext (queryResp : List MatchT) (topic entity : String)
    (max_tokens : Nat) : GroundOut :=
  let searchQuery := if jsToLower topic = "recent"
    then "recent conversation important memory significant moment" else topic
  let searchResult := toolSearch queryResp searchQuery (mkRat 1 2)
  let header := groundingHeader topic entity
  let packed := packLoop max_tokens searchResult.memories header
    (estimateTokens header) []
  { context := packed.1, token_estimate := packed.2.1,
    memories_included := packed.2.2.length, total_available := searchResult.count }

set_option maxRecDepth 4000 in
/-- Claim C4 counterexample: with topic `"abc"`, entity `"all"`,
`max_tokens = 34` and a single match carrying no metadata, the loop's
bookkeeping stays at `14 + 20 = 34 ≤ 34` so the block is packed, but the
newline appended after the block is not counted: the returned context is 137
characters, whose estimated token count `⌈137/4⌉ = 35` exceeds the budget. -/
theorem grounding_budget_counterexample :
    (toolGetGroundingContext [⟨"m1", 1, some ⟨none, none, none, none, none⟩⟩]
        "abc" "all" 34).token_estimate = 34 ∧
    ¬ (estimateTokens (toolGetGroundingContext
        [⟨"m1", 1, some ⟨none, none, none, none, none⟩⟩] "abc" "all" 34).context ≤ 34) := by
  constructor
  · decide
  · decide

theorem packLoop_bound (max_tokens : Nat) :
    ∀ (mems : List SearchMemory) (context : String) (currentTokens : Nat)
      (included : List String), currentTokens ≤ max_tokens →
    (packLoop max_tokens mems context currentTokens included).2.1 ≤ max_tokens := by
  intro mems
  induction mems with
  | nil => intro context currentTokens included h; exact h
  | cons m rest ih =>
    intro context currentTokens included h
    rw [packLoop]
    by_cases hfit : currentTokens + estimateTokens m.formatted ≤ max_tokens
    · rw [if_pos hfit]
      exact ih _ _ _ hfit
    · rw [if_neg hfit]
      exact h

/-- Claim C4 amended: the budget bound holds for the loop's own token
bookkeeping (header estimate plus the sum of the packed blocks' estimates,
newlines uncounted): whenever the header alone fits the budget, the returned
`token_estimate` never exceeds `max_tokens`.  The estimate of the returned
context text itself can exceed the budget by the uncounted newlines. -/
theorem grounding_token_estimate_bounded (queryResp : List MatchT)
    (topic entity : String) (max_tokens : Nat)
    (h : estimateTokens (groundingHeader topic entity) ≤ max_tokens) :
    (toolGetGroundingContext queryResp topic entity max_tokens).token_estimate
      ≤ max_tokens := by
  unfold toolGetGroundingContext
  exact packLoop_bound max_tokens _ _ _ _ h

theorem grounding_token_estimate_bounded_witness :
    (toolGetGroundingContext [⟨"m1", 1, some ⟨none, none, none, none, none⟩⟩]
        "abc" "all" 2000).token_estimate ≤ 2000 :=
  grounding_token_estimate_bounded _ "abc" "all" 2000 (by decide)

/-! ## Memory writer (`toolIngest` lines 355-411, `toolStore` lines 417-450).
Metadata records are association lists of key/value pairs where the last
binding wins on lookup, matching JS object-spread overwrite semantics. -/

/-- A JS metadata value: the worker stores strings and numbers. -/
inductive Val where
  | str (s : String)
  | num (n : Nat)
deriving DecidableEq

/-- Property lookup on a metadata object: the value of the *last* binding
for the key (later spread entries overwrite earlier ones). -/
def jsGet (m : List (String × Val)) (k : String) : Option Val :=
  (m.reverse.find? (fun kv => kv.fst == k)).map Prod.snd

/-- JS truthiness of a possibly-absent value: `undefined`, `""` and `0` are
falsy. -/
def truthyV : Option Val → Bool
  | none => false
  | some (Val.str s) => !(s == "")
  | some (Val.num n) => !(n == 0)

/-- JS `a || d` on a possibly-absent metadata value. -/
def jsOrV (o : Option Val) (d : Val) : Val :=
  if truthyV o then o.getD d else d

structure IngestArgs where
  content : List Char
  entity_name : String
  source_platform : String
  memory_type : String
  metadata : List (String × Val)
deriving DecidableEq

structure BlobPayload where
  hash : String
  text : List Char
  metadata : List (String × Val)
deriving DecidableEq

structure VecEntry where
  id : String
  values : List Int
  ns : String
  metadata : List (String × Val)
deriving DecidableEq

/-- The external collaborators used by the writer: embedding model, blob
store, vector index, content hasher (SHA-256 in the worker) and id
generator (random in the worker; indexed by call position here). -/
structure Collab where
  embed : List Char → Except String (List Int)
  r2put : String → BlobPayload → Except String Unit
  upsert : VecEntry → Except String Unit
  hashContent : List Char → String
  generateId : Nat → String

/-- The `vectorMetadata` object built for one ingested chunk (worker lines
372-383): nine system-assigned pairs followed by the caller's metadata, so
caller keys are applied last and overwrite system keys on lookup. -/
def ingestChunkMeta (a : IngestArgs) (now : String) (chunk : List Char)
    (hash : String) (i total : Nat) : List (String × Val) :=
  [("entity_name", Val.str a.entity_name),
   ("source_platform", Val.str a.source_platform),
   ("memory_type", Val.str a.memory_type),
   ("timestamp", jsOrV (jsGet a.metadata "timestamp") (Val.str now)),
   ("text_preview", Val.str (String.mk (jsSlice chunk 0 500))),
   ("chunk_hash", Val.str hash),
   ("chunk_index", Val.num i),
   ("total_chunks", Val.num total),
   ("ingested_at", Val.str now)]
  ++ a.metadata

/-- The metadata actually carried by the upserted vector entry: for chunks
longer than 500 characters the worker assigns `r2_key` *after* the caller
metadata merge (line 392), which on lookup behaves as one more binding
appended at the end. -/
def ingestUpsertMeta (a : IngestArgs) (now : String) (chunk : List Char)
    (hash : String) (i total : Nat) : List (String × Val) :=
  if chunk.length > 500 then
    ingestChunkMeta a now chunk hash i total
      ++ [("r2_key", Val.str ("chunks/" ++ hash ++ ".json"))]
  else ingestChunkMeta a now chunk hash i total

/-- The body of one iteration of the ingest loop (worker lines 365-402):
hash, id, embed, build metadata, blob-put oversized chunks, upsert.  Returns
the blob puts and index upserts performed (in order) and either the pushed
result record `(id, hash, chunk_index)` or the thrown error.  A failing step
aborts the iteration but keeps the side effects already performed. -/
def processChunk (C : Collab) (a : IngestArgs) (now : String) (total i : Nat)
    (chunk : List Char) :
    List (String × BlobPayload) × List VecEntry × Except String (String × String × Nat) :=
  let hash := C.hashContent chunk
  let id := C.generateId i
  match C.embed chunk with
  | Except.error e => ([], [], Except.error e)
  | Except.ok embedding =>
    let vectorMetadata := ingestChunkMeta a now chunk hash i total
    if chunk.length > 500 then
      let r2Key := "chunks/" ++ hash ++ ".json"
      match C.r2put r2Key ⟨hash, chunk, vectorMetadata⟩ with
      | Except.error e => ([], [], Except.error e)
      | Except.ok _ =>
        let entry : VecEntry :=
          ⟨id, embedding, a.entity_name, ingestUpsertMeta a now chunk hash i total⟩
        match C.upsert entry with
        | Except.error e => ([(r2Key, ⟨hash, chunk, vectorMetadata⟩)], [], Except.error e)
        | Except.ok _ =>
          ([(r2Key, ⟨hash, chunk, vectorMetadata⟩)], [entry], Except.ok (id, hash, i))
    else
      let entry : VecEntry :=
        ⟨id, embedding, a.entity_name, ingestUpsertMeta a now chunk hash i total⟩
      match C.upsert entry with
      | Except.error e => ([], [], Except.error e)
      | Except.ok _ => ([], [entry], Except.ok (id, hash, i))

/-- The side effects accumulated over an ingest call. -/
structure IngestState where
  blobPuts : List (String × BlobPayload)
  upserts : List VecEntry
deriving DecidableEq

/-- The `for` loop over chunks: process sequentially; the first thrown error
aborts the whole call (there is no per-chunk `try`/`catch` in the worker),
keeping the side effects performed so far. -/
def ingestLoop (C : Collab) (a : IngestArgs) (now : String) (total : Nat) :
    List (List Char) → Nat → IngestState → List (String × String × Nat) →
    IngestState × Except String (List (String × String × Nat))
  | [], _, st, acc => (st, Except.ok acc)
  | chunk :: rest, i, st, acc =>
    let step := processChunk C a now total i chunk
    let st' : IngestState := ⟨st.blobPuts ++ step.1, st.upserts ++ step.2.1⟩
    match step.2.2 with
    | Except.error e => (st', Except.error e)
    | Except.ok r => ingestLoop C a now total rest (i + 1) st' (acc ++ [r])

structure IngestOut where
  success : Bool
  entity : String
  chunks_created : Nat
  memory_ids : List String
deriving DecidableEq

/-- `toolIngest`: chunk the content with the worker profile, run the loop,
and on success report the count and ids of the written chunks.  The outer
`Option` is the chunker fuel (`none` = the chunker loop did not finish). -/
def toolIngest (fuel : Nat) (C : Collab) (a : IngestArgs)
    (maxChunkTokens chunkOverlap : Int) (now : String) :
    Option (IngestState × Except String IngestOut) :=
  (chunkText fuel a.content maxChunkTokens chunkOverlap).map fun chunks =>
    let r := ingestLoop C a now chunks.length chunks 0 ⟨[], []⟩ []
    (r.1, r.2.map fun results =>
      ⟨true, a.entity_name, results.length, results.map fun x => x.1⟩)

structure StoreArgs where
  text : List Char
  entity_name : String
  source_platform : Option String
  memory_type : String
  metadata : List (String × Val)
deriving DecidableEq

/-- The `vectorMetadata` object built by `toolStore` (worker lines 426-435):
seven system pairs (no chunk-position fields, `source_platform` defaulting
to `direct` when absent) followed by the caller's metadata. -/
def storeMeta (a : StoreArgs) (now hash : String) : List (String × Val) :=
  [("entity_name", Val.str a.entity_name),
   ("source_platform", Val.str (a.source_platform.getD "direct")),
   ("memory_type", Val.str a.memory_type),
   ("timestamp", jsOrV (jsGet a.metadata "timestamp") (Val.str now)),
   ("text_preview", Val.str (String.mk (jsSlice a.text 0 500))),
   ("chunk_hash", Val.str hash),
   ("ingested_at", Val.str now)]
  ++ a.metadata

/-- `toolStore`: no chunking, no blob offload; one upsert. -/
def toolStore (C : Collab) (a : StoreArgs) (now : String) :
    IngestState × Except String (String × String × String) :=
  let id := C.generateId 0
  let hash := C.hashContent a.text
  match C.embed a.text with
  | Except.error e => (⟨[], []⟩, Except.error e)
  | Except.ok embedding =>
    let entry : VecEntry := ⟨id, embedding, a.entity_name, storeMeta a now hash⟩
    match C.upsert entry with
    | Except.error e => (⟨[], []⟩, Except.error e)
    | Except.ok _ => (⟨[], [entry]⟩, Except.ok (id, a.entity_name, a.memory_type))

/-! ## Lookup lemmas for spread-merged metadata -/

theorem jsGet_append (xs ys : List (String × Val)) (k : String) :
    jsGet (xs ++ ys) k
      = match jsGet ys k with
        | some v => some v
        | none => jsGet xs k := by
  unfold jsGet
  rw [List.reverse_append, List.find?_append]
  rcases h : List.find? (fun kv => kv.fst == k) ys.reverse with _ | p
  · simp [h, Option.orElse]
  · simp [h, Option.orElse]

theorem jsGet_single_self (k : String) (v : Val) : jsGet [(k, v)] k = some v := by
  unfold jsGet
  simp

theorem jsGet_single_ne (k k' : String) (v : Val) (h : k' ≠ k) :
    jsGet [(k', v)] k = none := by
  have hb : (k' == k) = false := beq_eq_false_iff_ne.mpr h
  unfold jsGet
  simp [List.find?, hb]

/-- The nine system-assigned keys of the ingest metadata record. -/
def systemMetaKeys : List String :=
  ["entity_name", "source_platform", "memory_type", "timestamp", "text_preview",
   "chunk_hash", "chunk_index", "total_chunks", "ingested_at"]

/-- Claim C8: caller-supplied metadata is spread last, so for each of the
nine system-assigned keys a colliding caller value is the one stored in the
upserted unit's metadata, both for `ingest` (even with the post-merge
`r2_key` assignment, which touches a different key) and for `store`. -/
theorem caller_metadata_overwrites_system (content textS chunk : List Char)
    (entity platform mtype : String) (sp : Option String)
    (m : List (String × Val)) (now hash : String) (i total : Nat)
    (k : String) (v : Val) (hk : k ∈ systemMetaKeys) (hv : jsGet m k = some v) :
    jsGet (ingestUpsertMeta ⟨content, entity, platform, mtype, m⟩ now chunk hash i total) k
      = some v ∧
    jsGet (storeMeta ⟨textS, entity, sp, mtype, m⟩ now hash) k = some v := by
  have hne : k ≠ "r2_key" := by fin_cases hk <;> decide
  constructor
  · unfold ingestUpsertMeta
    split_ifs
    · rw [jsGet_append, jsGet_single_ne _ _ _ (Ne.symm hne)]
      unfold ingestChunkMeta
      rw [jsGet_append, hv]
    · unfold ingestChunkMeta
      rw [jsGet_append, hv]
  · unfold storeMeta
    rw [jsGet_append, hv]

theorem caller_metadata_overwrites_system_witness :
    jsGet (ingestUpsertMeta ⟨[], "e", "p", "note", [("chunk_hash", Val.str "spoof")]⟩
        "t0" [] "h" 0 1) "chunk_hash" = some (Val.str "spoof") ∧
    jsGet (storeMeta ⟨[], "e", none, "note", [("chunk_hash", Val.str "spoof")]⟩
        "t0" "h") "chunk_hash" = some (Val.str "spoof") :=
  caller_metadata_overwrites_system [] [] [] "e" "p" "note" none
    [("chunk_hash", Val.str "spoof")] "t0" "h" 0 1 "chunk_hash" (Val.str "spoof")
    (by decide) (by decide)

/-- Claim C10: every vector entry upserted for a chunk carries exactly the
post-merge metadata; for chunks longer than 500 characters the `r2_key`
binding is appended after the caller merge and therefore always reads back
as `chunks/<hash of the chunk>.json` no matter what `r2_key` the caller
supplied, and for chunks of at most 500 characters the system assigns no
`r2_key` (the key reads back exactly as the caller's own metadata has it). -/
theorem r2_key_after_merge (C : Collab) (a : IngestArgs) (now : String)
    (chunk : List Char) (i total : Nat) :
    (∀ entry ∈ (processChunk C a now total i chunk).2.1,
        entry.metadata = ingestUpsertMeta a now chunk (C.hashContent chunk) i total) ∧
    (chunk.length > 500 →
      jsGet (ingestUpsertMeta a now chunk (C.hashContent chunk) i total) "r2_key"
        = some (Val.str ("chunks/" ++ C.hashContent chunk ++ ".json"))) ∧
    (chunk.length ≤ 500 →
      jsGet (ingestUpsertMeta a now chunk (C.hashContent chunk) i total) "r2_key"
        = jsGet a.metadata "r2_key") := by
  refine ⟨?_, ?_, ?_⟩
  · intro entry hentry
    unfold processChunk at hentry
    cases he : C.embed chunk with
    | error e => simp [he] at hentry
    | ok emb =>
      by_cases h5 : chunk.length > 500
      · cases hp : C.r2put ("chunks/" ++ C.hashContent chunk ++ ".json")
            ⟨C.hashContent chunk, chunk,
             ingestChunkMeta a now chunk (C.hashContent chunk) i total⟩ with
        | error e => simp [he, h5, hp] at hentry
        | ok u =>
          cases hu : C.upsert ⟨C.generateId i, emb, a.entity_name,
              ingestUpsertMeta a now chunk (C.hashContent chunk) i total⟩ with
          | error e => simp [he, h5, hp, hu] at hentry
          | ok u2 =>
            simp [he, h5, hp, hu] at hentry
            rw [hentry]
      · cases hu : C.upsert ⟨C.generateId i, emb, a.entity_name,
            ingestUpsertMeta a now chunk (C.hashContent chunk) i total⟩ with
        | error e => simp [he, h5, hu] at hentry
        | ok u2 =>
          simp [he, h5, hu] at hentry
          rw [hentry]
  · intro h5
    unfold ingestUpsertMeta
    rw [if_pos h5, jsGet_append, jsGet_single_self]
  · intro h5
    unfold ingestUpsertMeta
    rw [if_neg (by omega)]
    unfold ingestChunkMeta
    rw [jsGet_append]
    rcases h : jsGet a.metadata "r2_key" with _ | v
    · simp only []
      rfl
    · rfl

def c10Collab : Collab :=
  ⟨fun _ => Except.ok [], fun _ _ => Except.ok (), fun _ => Except.ok (),
   fun _ => "h", fun _ => "id"⟩

theorem r2_key_after_merge_witness :
    jsGet (ingestUpsertMeta ⟨[], "e", "p", "note", [("r2_key", Val.str "spoof")]⟩
        "t0" (List.replicate 501 'a') "h" 0 1) "r2_key"
      = some (Val.str "chunks/h.json") :=
  (r2_key_after_merge c10Collab ⟨[], "e", "p", "note", [("r2_key", Val.str "spoof")]⟩
    "t0" (List.replicate 501 'a') 0 1).2.1 (by rw [List.length_replicate]; omega)

/-! ## Claim C1: a chunk failure aborts the whole ingest batch -/

def exceptOk {e a : Type} : Except e a → Bool
  | Except.ok _ => true
  | Except.error _ => false

def c1Collab : Collab :=
  ⟨fun c => if c = List.replicate 4 'a' then Except.error "embed failure" else Except.ok [0],
   fun _ _ => Except.ok (), fun _ => Except.ok (), fun _ => "h", fun _ => "mem"⟩

def c1Args : IngestArgs := ⟨List.replicate 10 'a', "e1", "p", "note", []⟩

/-- Claim C1 counterexample: ingesting ten `a`s with `maxChunkTokens = 1`,
`chunkOverlap = 0` produces three chunks; the embedding collaborator fails on
the first chunk (`"aaaa"`) but would succeed on the others, yet the call
returns the thrown error and performs no index upsert at all — the remaining
chunks are not processed and no per-chunk ids are returned. -/
theorem ingest_no_isolation_counterexample :
    chunkText 10 c1Args.content 1 0
      = some [List.replicate 4 'a', List.replicate 4 'a', List.replicate 2 'a'] ∧
    c1Collab.embed (List.replicate 2 'a') = Except.ok [0] ∧
    toolIngest 10 c1Collab c1Args 1 0 "t0"
      = some (⟨[], []⟩, Except.error "embed failure") := by
  refine ⟨by decide, ?_, ?_⟩
  · rfl
  · rfl

theorem processChunk_upserts_len (C : Collab) (a : IngestArgs) (now : String)
    (total i : Nat) (chunk : List Char) :
    (processChunk C a now total i chunk).2.1.length
      = (if exceptOk (processChunk C a now total i chunk).2.2 then 1 else 0) := by
  unfold processChunk
  cases he : C.embed chunk with
  | error e => simp [exceptOk]
  | ok emb =>
    by_cases h5 : chunk.length > 500
    · cases hp : C.r2put ("chunks/" ++ C.hashContent chunk ++ ".json")
          ⟨C.hashContent chunk, chunk,
           ingestChunkMeta a now chunk (C.hashContent chunk) i total⟩ with
      | error e => simp [h5, hp, exceptOk]
      | ok u =>
        cases hu : C.upsert ⟨C.generateId i, emb, a.entity_name,
            ingestUpsertMeta a now chunk (C.hashContent chunk) i total⟩ with
        | error e => simp [h5, hp, hu, exceptOk]
        | ok u2 => simp [h5, hp, hu, exceptOk]
    · cases hu : C.upsert ⟨C.generateId i, emb, a.entity_name,
          ingestUpsertMeta a now chunk (C.hashContent chunk) i total⟩ with
      | error e => simp [h5, hu, exceptOk]
      | ok u2 => simp [h5, hu, exceptOk]

theorem ingestLoop_abort_aux (C : Collab) (a : IngestArgs) (now : String)
    (total : Nat) (bad : List Char) (post : List (List Char)) :
    ∀ (pre : List (List Char)) (i : Nat) (st : IngestState)
      (acc : List (String × String × Nat)),
    (∀ j (hj : j < pre.length),
      exceptOk (processChunk C a now total (i + j) (pre.get ⟨j, hj⟩)).2.2 = true) →
    exceptOk (processChunk C a now total (i + pre.length) bad).2.2 = false →
    exceptOk (ingestLoop C a now total (pre ++ bad :: post) i st acc).2 = false ∧
    (ingestLoop C a now total (pre ++ bad :: post) i st acc).1.upserts.length
      = st.upserts.length + pre.length := by
  intro pre
  induction pre with
  | nil =>
    intro i st acc _ hbad
    simp only [List.length_nil, Nat.add_zero] at hbad
    rw [List.nil_append, ingestLoop]
    cases hb : (processChunk C a now total i bad).2.2 with
    | error e =>
      have hlen := processChunk_upserts_len C a now total i bad
      rw [hb] at hlen
      simp [exceptOk] at hlen
      simp [hb, exceptOk, hlen]
    | ok r =>
      rw [hb] at hbad
      simp [exceptOk] at hbad
  | cons c pre' ih =>
    intro i st acc hpre hbad
    have h0 : exceptOk (processChunk C a now total i c).2.2 = true := by
      have := hpre 0 (by simp)
      simpa using this
    rw [List.cons_append, ingestLoop]
    cases hc : (processChunk C a now total i c).2.2 with
    | error e =>
      rw [hc] at h0
      simp [exceptOk] at h0
    | ok r =>
      have hlen := processChunk_upserts_len C a now total i c
      rw [hc] at hlen
      simp [exceptOk] at hlen
      simp only [hc]
      have hpre' : ∀ j (hj : j < pre'.length),
          exceptOk (processChunk C a now total ((i + 1) + j) (pre'.get ⟨j, hj⟩)).2.2
            = true := by
        intro j hj
        have := hpre (j + 1) (by simpa using Nat.succ_lt_succ hj)
        have harith : i + (j + 1) = (i + 1) + j := by omega
        rw [harith] at this
        simpa using this
      have hbad' :
          exceptOk (processChunk C a now total ((i + 1) + pre'.length) bad).2.2
            = false := by
        have harith : i + (c :: pre').length = (i + 1) + pre'.length := by
          simp [List.length_cons]
          omega
        rw [harith] at hbad
        exact hbad
      have := ih (i + 1)
        ⟨st.blobPuts ++ (processChunk C a now total i c).1,
         st.upserts ++ (processChunk C a now total i c).2.1⟩ (acc ++ [r]) hpre' hbad'
      refine ⟨this.1, ?_⟩
      rw [this.2]
      simp [List.length_append, hlen]
      omega

/-- Claim C1 amended: there is no per-chunk failure isolation in `toolIngest`.
If the chunks split as `pre ++ bad :: post`, every chunk of `pre` processes
successfully and `bad` fails (in its embedding, blob put, or upsert), then
the call returns the thrown error instead of the count and ids of the
successes, exactly the `pre` chunks have been upserted, and the chunks after
the failing one are never processed. -/
theorem toolIngest_abort_on_failure (C : Collab) (a : IngestArgs) (now : String)
    (total : Nat) (pre : List (List Char)) (bad : List Char)
    (post : List (List Char))
    (hpre : ∀ j (hj : j < pre.length),
      exceptOk (processChunk C a now total j (pre.get ⟨j, hj⟩)).2.2 = true)
    (hbad : exceptOk (processChunk C a now total pre.length bad).2.2 = false) :
    exceptOk (ingestLoop C a now total (pre ++ bad :: post) 0 ⟨[], []⟩ []).2 = false ∧
    (ingestLoop C a now total (pre ++ bad :: post) 0 ⟨[], []⟩ []).1.upserts.length
      = pre.length := by
  have h := ingestLoop_abort_aux C a now total bad post pre 0 ⟨[], []⟩ []
    (by simpa using hpre) (by simpa using hbad)
  simpa using h

def c1wCollab : Collab :=
  ⟨fun c => if c = ['b'] then Except.error "down" else Except.ok [0],
   fun _ _ => Except.ok (), fun _ => Except.ok (), fun _ => "h", fun _ => "id"⟩

def c1wArgs : IngestArgs := ⟨[], "e", "p", "note", []⟩

theorem toolIngest_abort_on_failure_witness :
    exceptOk (ingestLoop c1wCollab c1wArgs "t" 3 ([['a']] ++ ['b'] :: [['c']])
        0 ⟨[], []⟩ []).2 = false ∧
    (ingestLoop c1wCollab c1wArgs "t" 3 ([['a']] ++ ['b'] :: [['c']])
        0 ⟨[], []⟩ []).1.upserts.length = 1 := by
  have h := toolIngest_abort_on_failure c1wCollab c1wArgs "t" 3 [['a']] ['b'] [['c']]
    (by
      intro j hj
      have hj0 : j = 0 := by
        simp at hj
        omega
      subst hj0
      rfl)
    (by rfl)
  simpa using h

/-! ## Claim C9: the 600-character ingest scenario -/

def a600 : List Char := List.replicate 600 'a'

def okCollab (hashFn : List Char → String) (genId : Nat → String) : Collab :=
  ⟨fun _ => Except.ok [0], fun _ _ => Except.ok (), fun _ => Except.ok (),
   hashFn, genId⟩

def c9Args : IngestArgs := ⟨a600, "e1", "p", "note", []⟩

set_option maxRecDepth 40000 in
/-- Claim C9: ingesting 600 `a`s with the fine profile (400 tokens ≈ 1600
characters) and no caller metadata writes exactly one memory unit whose
metadata has `chunk_index = 0` and `total_chunks = 1`; because 600 > 500 the
full chunk is put to blob storage under `chunks/<hash>.json` and that key is
recorded in the upserted metadata; and `text_preview` is exactly the first
500 characters of the chunk. -/
theorem ingest_600_single_unit (hashFn : List Char → String)
    (genId : Nat → String) (now : String) :
    toolIngest 1 (okCollab hashFn genId) c9Args 400 50 now
      = some (⟨[("chunks/" ++ hashFn a600 ++ ".json",
                 ⟨hashFn a600, a600, ingestChunkMeta c9Args now a600 (hashFn a600) 0 1⟩)],
               [⟨genId 0, [0], "e1", ingestUpsertMeta c9Args now a600 (hashFn a600) 0 1⟩]⟩,
             Except.ok ⟨true, "e1", 1, [genId 0]⟩) ∧
    jsGet (ingestUpsertMeta c9Args now a600 (hashFn a600) 0 1) "chunk_index"
      = some (Val.num 0) ∧
    jsGet (ingestUpsertMeta c9Args now a600 (hashFn a600) 0 1) "total_chunks"
      = some (Val.num 1) ∧
    jsGet (ingestUpsertMeta c9Args now a600 (hashFn a600) 0 1) "r2_key"
      = some (Val.str ("chunks/" ++ hashFn a600 ++ ".json")) ∧
    jsGet (ingestUpsertMeta c9Args now a600 (hashFn a600) 0 1) "text_preview"
      = some (Val.str (String.mk (List.replicate 500 'a'))) ∧
    (String.mk (List.replicate 500 'a')).length = 500 := by
  refine ⟨?_, ?_, ?_, ?_, ?_, ?_⟩
  · rfl
  · rfl
  · rfl
  · rfl
  · rfl
  · rfl
